import Mathlib

/-!
Verification of the code-inspector analysis pipeline.

This file embeds the analysis pipeline of the repository in Lean:

* the zod `VulnerabilityDetectionSchema` and the JSON extraction performed by
  `analyzeCode` (src/unnamed/part_006, lines 164-293), including executable
  models of `JSON.parse` and of the two regular expressions used to locate a
  JSON candidate in the raw model output;
* the severity aggregation and scoring of `startAnalysis`
  (src/unnamed/part_006, lines 340-412) together with its persistence of the
  session row and the finding rows;
* the ownership-checked retrieval/export handlers (`getAnalysisResults`,
  `exportAnalysis`) and the finding mutations (`resolveIssue`,
  `markFalsePositive`, `bulkUpdateIssues`) of src/src/api/system/index.ts,
  over an explicit database state.

Machine floats of the source are modelled as rationals: every constant of the
scoring formula (3, 2, 1, 0.5, 0.8) and every comparison performed by the code
is exact on dyadic rationals, so the embedding agrees with IEEE-754 on the
values the pipeline manipulates.  Wall-clock times (`createdAt`,
`processingTimeMs`, ...) and the generated UUIDs are passed in as opaque
parameters, since the claims do not constrain them.
-/

set_option maxRecDepth 100000

namespace CodeInspector

/-- The brace and backtick characters, named so that they can be used in
executable definitions (they are meta-characters of the regexes modelled
below). -/
def lbrace : Char := Char.ofNat 123

/-- Closing brace character. -/
def rbrace : Char := Char.ofNat 125

/-- Backtick character. -/
def btick : Char := Char.ofNat 96

/-- The severity enumeration of `VulnerabilityDetectionSchema`:
`z.enum(["critical", "high", "medium", "low"])`. -/
inductive Severity where
  | critical
  | high
  | medium
  | low
deriving DecidableEq, Repr

/-- One entry of the `vulnerabilities` array after zod validation
(src/unnamed/part_006, lines 164-176). -/
structure RawVuln where
  severity : Severity
  type : String
  category : String
  filePath : String
  lineNumber : Option ℚ
  codeSnippet : Option String
  description : String
  recommendation : String
  confidenceScore : Option ℚ
deriving DecidableEq, Repr

/-- JSON values, as produced by `JSON.parse`.  Numbers are modelled as
rationals. -/
inductive Json where
  | null
  | bool (b : Bool)
  | num (q : ℚ)
  | str (s : String)
  | arr (elems : List Json)
  | obj (fields : List (String × Json))
deriving Repr

/-- The whitespace characters skipped by `JSON.parse` (JSON grammar `ws`). -/
def isWsJson (c : Char) : Bool :=
  c = ' ' || c = '\t' || c = '\n' || c = Char.ofNat 13

/-- Strip JSON whitespace. -/
def skipWsJson (cs : List Char) : List Char :=
  cs.dropWhile isWsJson

/-- Value of a hexadecimal digit. -/
def hexVal (c : Char) : Option ℕ :=
  if '0' ≤ c ∧ c ≤ '9' then some (c.toNat - 48)
  else if 'a' ≤ c ∧ c ≤ 'f' then some (c.toNat - 87)
  else if 'A' ≤ c ∧ c ≤ 'F' then some (c.toNat - 55)
  else none

/-- The single-character escapes of JSON strings. -/
def escapeChar (e : Char) : Option Char :=
  if e = '"' then some '"'
  else if e = '\\' then some '\\'
  else if e = '/' then some '/'
  else if e = 'b' then some (Char.ofNat 8)
  else if e = 'f' then some (Char.ofNat 12)
  else if e = 'n' then some '\n'
  else if e = 'r' then some (Char.ofNat 13)
  else if e = 't' then some '\t'
  else none

/-- Parse the body of a JSON string (after the opening quote); returns the
decoded characters and the remainder after the closing quote.  Control
characters below 0x20 are rejected, as in `JSON.parse`. -/
def parseStringBody : List Char → Option (List Char × List Char)
  | [] => none
  | c :: rest =>
    if c = '"' then some ([], rest)
    else if c = '\\' then
      match rest with
      | [] => none
      | e :: rest2 =>
        if e = 'u' then
          match rest2 with
          | h1 :: h2 :: h3 :: h4 :: rest3 =>
            match hexVal h1, hexVal h2, hexVal h3, hexVal h4 with
            | some a, some b, some c2, some d =>
              (parseStringBody rest3).map
                (fun p => (Char.ofNat (a * 4096 + b * 256 + c2 * 16 + d) :: p.1, p.2))
            | _, _, _, _ => none
          | _ => none
        else
          match escapeChar e with
          | some ec => (parseStringBody rest2).map (fun p => (ec :: p.1, p.2))
          | none => none
    else if c.toNat < 32 then none
    else (parseStringBody rest).map (fun p => (c :: p.1, p.2))

/-- Numeric value of a decimal digit character. -/
def digitVal (c : Char) : ℕ := c.toNat - 48

/-- Decimal digit string to natural number. -/
def digitsToNat (ds : List Char) : ℕ :=
  ds.foldl (fun n c => n * 10 + digitVal c) 0

/-- Parse the optional exponent part of a JSON number and assemble the value.
`ip` and `fd` are the integer and fraction digits already read. -/
def parseExpPart (neg : Bool) (ip fd : List Char) (cs : List Char) :
    Option (ℚ × List Char) :=
  let mant : ℚ := (digitsToNat (ip ++ fd) : ℚ) / ((10 : ℚ) ^ fd.length)
  let base : ℚ := if neg then -mant else mant
  match cs with
  | c :: rest =>
    if c = 'e' ∨ c = 'E' then
      let signAndRest : Bool × List Char :=
        match rest with
        | c2 :: r2 =>
          if c2 = '-' then (true, r2)
          else if c2 = '+' then (false, r2)
          else (false, rest)
        | [] => (false, rest)
      let ed := signAndRest.2.takeWhile Char.isDigit
      if ed = [] then none
      else
        let e := digitsToNat ed
        some (if signAndRest.1 then base / (10 : ℚ) ^ e else base * (10 : ℚ) ^ e,
          signAndRest.2.dropWhile Char.isDigit)
    else some (base, cs)
  | [] => some (base, [])

/-- Parse a JSON number per the JSON grammar (`-? int frac? exp?`, with no
leading zeros). -/
def parseNumber (cs : List Char) : Option (ℚ × List Char) :=
  let signAndRest : Bool × List Char :=
    match cs with
    | c :: rest => if c = '-' then (true, rest) else (false, cs)
    | [] => (false, cs)
  let neg := signAndRest.1
  let cs1 := signAndRest.2
  let ip := cs1.takeWhile Char.isDigit
  let cs2 := cs1.dropWhile Char.isDigit
  if ip = [] then none
  else if 1 < ip.length ∧ ip.head? = some '0' then none
  else
    match cs2 with
    | c :: rest =>
      if c = '.' then
        let fd := rest.takeWhile Char.isDigit
        if fd = [] then none
        else parseExpPart neg ip fd (rest.dropWhile Char.isDigit)
      else parseExpPart neg ip [] cs2
    | [] => parseExpPart neg ip [] []

mutual

/-- Fueled recursive-descent parser for JSON values, modelling `JSON.parse`. -/
def parseValue : ℕ → List Char → Option (Json × List Char)
  | 0, _ => none
  | fuel + 1, cs =>
    match skipWsJson cs with
    | [] => none
    | c :: rest =>
      if c = '"' then
        (parseStringBody rest).map (fun p => (Json.str (String.mk p.1), p.2))
      else if c = 'n' then
        match rest with
        | 'u' :: 'l' :: 'l' :: r => some (Json.null, r)
        | _ => none
      else if c = 't' then
        match rest with
        | 'r' :: 'u' :: 'e' :: r => some (Json.bool true, r)
        | _ => none
      else if c = 'f' then
        match rest with
        | 'a' :: 'l' :: 's' :: 'e' :: r => some (Json.bool false, r)
        | _ => none
      else if c = '[' then
        match skipWsJson rest with
        | ']' :: r2 => some (Json.arr [], r2)
        | _ => parseElems fuel rest []
      else if c = lbrace then
        match skipWsJson rest with
        | r :: r2 =>
          if r = rbrace then some (Json.obj [], r2) else parseMembers fuel rest []
        | [] => none
      else
        (parseNumber (c :: rest)).map (fun p => (Json.num p.1, p.2))

/-- Parse the remaining elements of a non-empty JSON array. -/
def parseElems : ℕ → List Char → List Json → Option (Json × List Char)
  | 0, _, _ => none
  | fuel + 1, cs, acc =>
    match parseValue fuel cs with
    | none => none
    | some (v, rest) =>
      match skipWsJson rest with
      | ',' :: rest2 => parseElems fuel rest2 (acc ++ [v])
      | ']' :: rest2 => some (Json.arr (acc ++ [v]), rest2)
      | _ => none

/-- Parse the remaining members of a non-empty JSON object. -/
def parseMembers : ℕ → List Char → List (String × Json) →
    Option (Json × List Char)
  | 0, _, _ => none
  | fuel + 1, cs, acc =>
    match skipWsJson cs with
    | q :: rest =>
      if q = '"' then
        match parseStringBody rest with
        | none => none
        | some (key, rest2) =>
          match skipWsJson rest2 with
          | ':' :: rest3 =>
            match parseValue fuel rest3 with
            | none => none
            | some (v, rest4) =>
              match skipWsJson rest4 with
              | c :: rest5 =>
                if c = ',' then
                  parseMembers fuel rest5 (acc ++ [(String.mk key, v)])
                else if c = rbrace then
                  some (Json.obj (acc ++ [(String.mk key, v)]), rest5)
                else none
              | [] => none
          | _ => none
      else none
    | [] => none

end

/-- `JSON.parse`: parse a whole string as a single JSON value, allowing
surrounding whitespace and nothing else. -/
def jsonParse (s : String) : Option Json :=
  match parseValue (2 * s.data.length + 4) s.data with
  | some (v, rest) => if skipWsJson rest = [] then some v else none
  | none => none

/-- Property lookup on a parsed JSON object.  `JSON.parse` keeps the last
occurrence of a duplicated key, so the lookup returns the last binding. -/
def lookupLast (fields : List (String × Json)) (k : String) : Option Json :=
  ((fields.filter (fun p => p.1 == k)).map (fun p => p.2)).getLast?

/-- `z.enum(["critical", "high", "medium", "low"])` applied to a property that
may be absent. -/
def parseSeverity : Option Json → Option Severity
  | some (Json.str s) =>
    if s = "critical" then some Severity.critical
    else if s = "high" then some Severity.high
    else if s = "medium" then some Severity.medium
    else if s = "low" then some Severity.low
    else none
  | _ => none

/-- `z.string().min(n)`: a required string property of length at least `n`. -/
def parseMinString (n : ℕ) : Option Json → Option String
  | some (Json.str s) => if n ≤ s.length then some s else none
  | _ => none

/-- `z.number().optional()`: absent is accepted, any JSON number is accepted,
anything else (including `null`) is rejected. -/
def parseOptNumber : Option Json → Option (Option ℚ)
  | none => some none
  | some (Json.num q) => some (some q)
  | _ => none

/-- `z.string().optional()`. -/
def parseOptString : Option Json → Option (Option String)
  | none => some none
  | some (Json.str s) => some (some s)
  | _ => none

/-- `z.number().min(0).max(1).optional()`: the `confidenceScore` validator. -/
def parseConfidence : Option Json → Option (Option ℚ)
  | none => some none
  | some (Json.num q) => if 0 ≤ q ∧ q ≤ 1 then some (some q) else none
  | _ => none

/-- Validation of one entry of the `vulnerabilities` array against the inner
object of `VulnerabilityDetectionSchema` (src/unnamed/part_006, lines
165-175). -/
def parseVuln : Json → Option RawVuln
  | Json.obj fields =>
    (parseSeverity (lookupLast fields "severity")).bind fun sev =>
    (parseMinString 1 (lookupLast fields "type")).bind fun ty =>
    (parseMinString 1 (lookupLast fields "category")).bind fun cat =>
    (parseMinString 1 (lookupLast fields "filePath")).bind fun fp =>
    (parseOptNumber (lookupLast fields "lineNumber")).bind fun ln =>
    (parseOptString (lookupLast fields "codeSnippet")).bind fun snip =>
    (parseMinString 10 (lookupLast fields "description")).bind fun desc =>
    (parseMinString 10 (lookupLast fields "recommendation")).bind fun recomm =>
    (parseConfidence (lookupLast fields "confidenceScore")).bind fun conf =>
    some ⟨sev, ty, cat, fp, ln, snip, desc, recomm, conf⟩
  | _ => none

/-- The `vulnerabilities` property of the top-level payload, which must be an
array inside an object. -/
def getVulnArray : Json → Option (List Json)
  | Json.obj fields =>
    match lookupLast fields "vulnerabilities" with
    | some (Json.arr xs) => some xs
    | _ => none
  | _ => none

/-- Validate every entry of the `vulnerabilities` array; one failure rejects
the whole list. -/
def parseVulns : List Json → Option (List RawVuln)
  | [] => some []
  | item :: rest =>
    match parseVuln item, parseVulns rest with
    | some v, some vs => some (v :: vs)
    | _, _ => none

/-- `VulnerabilityDetectionSchema.parse`: the whole payload validates only if
every entry of the `vulnerabilities` array validates (zod rejects the entire
object otherwise, and `analyzeCode` then falls back to the empty list). -/
def VulnerabilityDetectionSchema (j : Json) : Option (List RawVuln) :=
  (getVulnArray j).bind parseVulns

/-!  ## The JSON-candidate extraction of `analyzeCode`

`analyzeCode` locates a JSON candidate in the raw model output with
`text.match(/```(?:json)?\s*(\{[\s\S]*?\})\s*```/)` and, failing that,
`text.match(/\{[\s\S]*\}/)` (src/unnamed/part_006, lines 252-270).  The
definitions below implement exactly these two regex searches: leftmost match
position; the lazy group of the first regex takes the shortest body whose
closing brace is followed by optional whitespace and a fence; the greedy body
of the second regex extends to the last closing brace of the text. -/

/-- The character class `\s` of JavaScript regular expressions. -/
def isWsRegex (c : Char) : Bool :=
  c = ' ' || c = '\t' || c = '\n' || c = Char.ofNat 11 || c = Char.ofNat 12 ||
  c = Char.ofNat 13 || c = Char.ofNat 0xa0 || c = Char.ofNat 0x1680 ||
  (0x2000 ≤ c.toNat && c.toNat ≤ 0x200a) || c = Char.ofNat 0x2028 ||
  c = Char.ofNat 0x2029 || c = Char.ofNat 0x202f || c = Char.ofNat 0x205f ||
  c = Char.ofNat 0x3000 || c = Char.ofNat 0xfeff

/-- Does the text start with three backticks (the continuation ```` ``` ````
required after the lazy group)? -/
def startsWithFence : List Char → Bool
  | c1 :: c2 :: c3 :: _ => c1 == btick && c2 == btick && c3 == btick
  | _ => false

/-- The optional `(?:json)?` tag after the opening fence. -/
def stripJsonTag : List Char → List Char
  | 'j' :: 's' :: 'o' :: 'n' :: rest => rest
  | cs => cs

/-- The lazy group `[\s\S]*?` followed by `\}\s*` ```` ``` ````: accumulate
characters until the first closing brace whose remainder, after `\s*`, starts
with a fence.  Returns the group body including that closing brace. -/
def lazyBody (acc : List Char) : List Char → Option (List Char)
  | [] => none
  | c :: rest =>
    if c = rbrace then
      if startsWithFence (rest.dropWhile isWsRegex) then some (acc ++ [rbrace])
      else lazyBody (acc ++ [c]) rest
    else lazyBody (acc ++ [c]) rest

/-- Try to match ``/```(?:json)?\s*(\{[\s\S]*?\})\s*```/`` anchored at the
start of `cs`; returns the captured group. -/
def tryFenceAt (cs : List Char) : Option (List Char) :=
  match cs with
  | c1 :: c2 :: c3 :: rest =>
    if c1 = btick ∧ c2 = btick ∧ c3 = btick then
      match (stripJsonTag rest).dropWhile isWsRegex with
      | c :: body =>
        if c = lbrace then (lazyBody [] body).map (fun b => lbrace :: b)
        else none
      | [] => none
    else none
  | _ => none

/-- `text.match` with the fenced-block regex: try every start position from
the left. -/
def codeBlockSearch : List Char → Option (List Char)
  | [] => none
  | c :: rest =>
    match tryFenceAt (c :: rest) with
    | some cap => some cap
    | none => codeBlockSearch rest

/-- Greedy `[\s\S]*\}`: keep everything up to and including the last closing
brace of the text, failing when there is none. -/
def takeThroughLastClose (cs : List Char) : Option (List Char) :=
  match cs.reverse.dropWhile (fun c => !(c == rbrace)) with
  | [] => none
  | l => some l.reverse

/-- `text.match` with the fallback regex `/\{[\s\S]*\}/`: leftmost opening
brace that is followed by a closing brace, greedy to the last closing brace. -/
def braceSearch : List Char → Option (List Char)
  | [] => none
  | c :: rest =>
    if c = lbrace then
      match takeThroughLastClose rest with
      | some body => some (lbrace :: body)
      | none => braceSearch rest
    else braceSearch rest

/-- The `jsonText` candidate selected by `analyzeCode` (lines 252-270): the
fenced-block capture when the first regex matches, the fallback match
otherwise, and the empty string when neither matches. -/
def extractCandidate (text : List Char) : List Char :=
  match codeBlockSearch text with
  | some cap => cap
  | none =>
    match braceSearch text with
    | some m => m
    | none => []

/-- The pure extraction chain of `analyzeCode` applied to the response text
(lines 245-287): empty text, missing candidate, `JSON.parse` failure and
schema failure all yield the empty list; on success the validated entries are
returned with the `filePath` fallback of line 279 applied. -/
def extractFindings (text : String) (projectName : String) : List RawVuln :=
  if text = "" then []
  else if extractCandidate text.data = [] then []
  else
    match jsonParse (String.mk (extractCandidate text.data)) with
    | none => []
    | some v =>
      match VulnerabilityDetectionSchema v with
      | none => []
      | some vulns =>
        vulns.map (fun v =>
          { v with
            filePath :=
              if v.filePath = "" then projectName ++ "/main.js"
              else v.filePath })

/-- The outcome of the reasoning-service call performed by `analyzeCode`: the
call either throws (network error, non-2xx, timeout) or yields a response
text.  An empty response text is the `!text` branch of line 247. -/
inductive AIOutcome where
  | failure
  | success (text : String)

/-- `analyzeCode` (lines 178-293) as a function of the call outcome: the outer
`try/catch` maps a thrown error to the empty list, and otherwise the
extraction chain runs on the response text. -/
def analyzeCode (outcome : AIOutcome) (projectName : String) : List RawVuln :=
  match outcome with
  | AIOutcome.failure => []
  | AIOutcome.success text => extractFindings text projectName

/-!  ## Aggregation and scoring of `startAnalysis` -/

/-- Number of findings with the given severity, as computed by the four
`filter` calls of lines 341-346. -/
def countSeverity (s : Severity) (vulns : List RawVuln) : ℕ :=
  (vulns.filter (fun v => v.severity == s)).length

/-- The `issueCounts` record of lines 341-346. -/
structure IssueCounts where
  critical : ℕ
  high : ℕ
  medium : ℕ
  low : ℕ
deriving DecidableEq, Repr

/-- Per-severity counts of a finding list. -/
def issueCounts (vulns : List RawVuln) : IssueCounts :=
  ⟨countSeverity Severity.critical vulns, countSeverity Severity.high vulns,
    countSeverity Severity.medium vulns, countSeverity Severity.low vulns⟩

/-- The overall security score of lines 350-359: 10 when there are no
findings, and otherwise `Math.max(0, 10 - (3·critical + 2·high + 1·medium +
0.5·low))`. -/
def overallScore (vulns : List RawVuln) : ℚ :=
  let c := issueCounts vulns
  if 0 < vulns.length then
    max 0 (10 - ((c.critical : ℚ) * 3 + (c.high : ℚ) * 2 + (c.medium : ℚ) * 1 +
      (c.low : ℚ) * (1 / 2)))
  else 10

/-- `vuln.confidenceScore || 0.8` (line 401).  Within the schema-validated
range `[0, 1]` the only falsy number is `0`, so an absent score and an
explicit `0` both fall back to `0.8`. -/
def confidenceOrDefault (c : Option ℚ) : ℚ :=
  match c with
  | some q => if q = 0 then 8 / 10 else q
  | none => 8 / 10

/-!  ## Database state and the request handlers

The persistent store is modelled as explicit lists of rows.  Authentication
(`getApiKeyFromHeader` / `validateApiKey`) resolves the bearer token to an
`apiKeyId`; the handlers below are the post-authentication cores, taking that
`apiKeyId` as the principal.  Timestamps and generated UUIDs are opaque
parameters. -/

/-- A row of `projectsTable` (the fields the pipeline reads). -/
structure Project where
  id : String
  apiKeyId : String
  name : String
  content : String
deriving DecidableEq, Repr

/-- A row of `analysisSessionsTable` (the fields the pipeline writes and the
claims constrain). -/
structure SessionRow where
  id : String
  projectId : String
  status : String
  overallScore : ℚ
  totalIssues : ℕ
  criticalIssues : ℕ
  highIssues : ℕ
  mediumIssues : ℕ
  lowIssues : ℕ
  aiModelUsed : String
deriving DecidableEq, Repr

/-- A row of `securityIssuesTable`. -/
structure IssueRow where
  id : String
  analysisSessionId : String
  severity : Severity
  type : String
  category : String
  filePath : String
  lineNumber : Option ℚ
  codeSnippet : Option String
  description : String
  recommendation : String
  confidenceScore : ℚ
  falsePositive : Bool
  resolved : Bool
  createdAt : ℕ
deriving DecidableEq, Repr

/-- The shared persistent store. -/
structure DB where
  projects : List Project
  sessions : List SessionRow
  issues : List IssueRow
deriving DecidableEq, Repr

/-- Outcome of a handler: a success response with an HTTP status and payload,
or an error response with a message and status (`errorResponse`). -/
inductive ApiResult (α : Type) where
  | ok (status : ℕ) (payload : α)
  | err (message : String) (status : ℕ)
deriving DecidableEq, Repr

/-- The owner (api key id) of an issue through the
`issue → session → project` join used by `verifyIssueOwnership` and the
handlers of src/src/api/system/index.ts. -/
def issueOwner (db : DB) (i : IssueRow) : Option String :=
  (db.sessions.find? (fun s => s.id == i.analysisSessionId)).bind
    (fun s => (db.projects.find? (fun p => p.id == s.projectId)).map
      (fun p => p.apiKeyId))

/-- `verifyIssueOwnership` (src/src/api/system/index.ts, lines 58-71): the
join row exists iff some issue with the given id is owned by the key. -/
def verifyIssueOwnership (db : DB) (issueId apiKeyId : String) : Bool :=
  (db.issues.find?
    (fun i => i.id == issueId && issueOwner db i == some apiKeyId)).isSome

/-- The owner of a session through the `session → project` left join used by
`getAnalysisResults` and `exportAnalysis`. -/
def sessionOwner (db : DB) (s : SessionRow) : Option String :=
  (db.projects.find? (fun p => p.id == s.projectId)).map (fun p => p.apiKeyId)

/-- `getAnalysisResults` (src/unnamed/part_006, lines 445-501), after
authentication: fetch the session joined with its project, answer `404
Analysis session not found` when the row is missing or the joined
`projectApiKeyId` differs from the caller, and otherwise return the session
with its issues. -/
def getAnalysisResults (db : DB) (apiKeyId sessionId : String) :
    ApiResult (SessionRow × List IssueRow) :=
  match db.sessions.find? (fun s => s.id == sessionId) with
  | none => ApiResult.err "Analysis session not found" 404
  | some s =>
    if sessionOwner db s == some apiKeyId then
      ApiResult.ok 200
        (s, db.issues.filter (fun i => i.analysisSessionId == sessionId))
    else ApiResult.err "Analysis session not found" 404

/-- `exportAnalysis` (src/unnamed/part_006, lines 503-581), after
authentication: the same ownership check as `getAnalysisResults`; both the
`pdf` and the `json` branches answer 200 with the session, the project name
and the issues (they differ only in response headers). -/
def exportAnalysis (db : DB) (apiKeyId sessionId format : String) :
    ApiResult (SessionRow × Option String × List IssueRow) :=
  match db.sessions.find? (fun s => s.id == sessionId) with
  | none => ApiResult.err "Analysis session not found" 404
  | some s =>
    if sessionOwner db s == some apiKeyId then
      let payload :=
        (s, (db.projects.find? (fun p => p.id == s.projectId)).map
          (fun p => p.name),
          db.issues.filter (fun i => i.analysisSessionId == sessionId))
      if format = "pdf" then ApiResult.ok 200 payload
      else ApiResult.ok 200 payload
    else ApiResult.err "Analysis session not found" 404

/-- The single-row update `set({ resolved: true })` of `resolveIssue`. -/
def setResolved (issueId : String) (i : IssueRow) : IssueRow :=
  if i.id == issueId then { i with resolved := true } else i

/-- The single-row update `set({ falsePositive: true })` of
`markFalsePositive`. -/
def setFalsePositive (issueId : String) (i : IssueRow) : IssueRow :=
  if i.id == issueId then { i with falsePositive := true } else i

/-- `resolveIssue` (src/src/api/system/index.ts, lines 217-257), after
authentication: `404 Issue not found` unless `verifyIssueOwnership` succeeds;
otherwise set `resolved = true` on the row and answer 200 with the updated
row. -/
def resolveIssue (db : DB) (apiKeyId issueId : String) :
    ApiResult (Option IssueRow) × DB :=
  if verifyIssueOwnership db issueId apiKeyId then
    let issues' := db.issues.map (setResolved issueId)
    (ApiResult.ok 200 (issues'.find? (fun i => i.id == issueId)),
      { db with issues := issues' })
  else (ApiResult.err "Issue not found" 404, db)

/-- `markFalsePositive` (src/src/api/system/index.ts, lines 259-299), after
authentication. -/
def markFalsePositive (db : DB) (apiKeyId issueId : String) :
    ApiResult (Option IssueRow) × DB :=
  if verifyIssueOwnership db issueId apiKeyId then
    let issues' := db.issues.map (setFalsePositive issueId)
    (ApiResult.ok 200 (issues'.find? (fun i => i.id == issueId)),
      { db with issues := issues' })
  else (ApiResult.err "Issue not found" 404, db)

/-- The per-row update of `bulkUpdateIssues`: apply the provided `resolved`
and/or `falsePositive` flags. -/
def applyBulkUpdate (resolvedFlag falsePositiveFlag : Option Bool)
    (i : IssueRow) : IssueRow :=
  let i1 :=
    match resolvedFlag with
    | some b => { i with resolved := b }
    | none => i
  match falsePositiveFlag with
  | some b => { i1 with falsePositive := b }
  | none => i1

/-- The ids of the requested issues that the caller owns (the
`ownedIssueIds` query of `bulkUpdateIssues`). -/
def bulkOwnedIds (db : DB) (apiKeyId : String) (issueIds : List String) :
    List String :=
  (db.issues.filter
    (fun i => issueIds.contains i.id && issueOwner db i == some apiKeyId)).map
    (fun i => i.id)

/-- `bulkUpdateIssues` (src/src/api/system/index.ts, lines 301-371), after
authentication: reject with 404 when any requested id is missing or not
owned, with 400 when no flag is supplied, and otherwise update the owned
rows. -/
def bulkUpdateIssues (db : DB) (apiKeyId : String) (issueIds : List String)
    (resolvedFlag falsePositiveFlag : Option Bool) :
    ApiResult (List IssueRow) × DB :=
  if issueIds.filter
      (fun id => !((bulkOwnedIds db apiKeyId issueIds).contains id)) ≠ [] then
    (ApiResult.err
      ("Some issues not found or unauthorized: " ++
        String.intercalate ", "
          (issueIds.filter
            (fun id => !((bulkOwnedIds db apiKeyId issueIds).contains id))))
      404, db)
  else if resolvedFlag.isNone ∧ falsePositiveFlag.isNone then
    (ApiResult.err "No update fields provided" 400, db)
  else
    (ApiResult.ok 200
      ((db.issues.map (fun i =>
        if (bulkOwnedIds db apiKeyId issueIds).contains i.id then
          applyBulkUpdate resolvedFlag falsePositiveFlag i
        else i)).filter
        (fun i => (bulkOwnedIds db apiKeyId issueIds).contains i.id)),
      { db with
        issues := db.issues.map (fun i =>
          if (bulkOwnedIds db apiKeyId issueIds).contains i.id then
            applyBulkUpdate resolvedFlag falsePositiveFlag i
          else i) })

/-!  ## `startAnalysis` -/

/-- The `analysisSessionsTable` row inserted by `startAnalysis`
(lines 364-381). -/
def buildSession (sessionId projectId : String) (vulns : List RawVuln) :
    SessionRow :=
  let c := issueCounts vulns
  { id := sessionId
    projectId := projectId
    status := "completed"
    overallScore := overallScore vulns
    totalIssues := vulns.length
    criticalIssues := c.critical
    highIssues := c.high
    mediumIssues := c.medium
    lowIssues := c.low
    aiModelUsed := "gemini-2.5-flash-lite" }

/-- The `securityIssuesTable` row inserted for one validated finding
(lines 385-412). -/
def buildIssue (issueId sessionId : String) (now : ℕ) (v : RawVuln) :
    IssueRow :=
  { id := issueId
    analysisSessionId := sessionId
    severity := v.severity
    type := v.type
    category := v.category
    filePath := v.filePath
    lineNumber := v.lineNumber
    codeSnippet := v.codeSnippet
    description := v.description
    recommendation := v.recommendation
    confidenceScore := confidenceOrDefault v.confidenceScore
    falsePositive := false
    resolved := false
    createdAt := now }

/-- The finding rows inserted by the loop of lines 384-412 starting at loop
index `k`, with the generated UUIDs supplied as `issueIds`. -/
def buildIssuesFrom (sessionId : String) (issueIds : ℕ → String) (now k : ℕ) :
    List RawVuln → List IssueRow
  | [] => []
  | v :: vs =>
    buildIssue (issueIds k) sessionId now v ::
      buildIssuesFrom sessionId issueIds now (k + 1) vs

/-- The finding rows inserted by the loop of lines 384-412. -/
def buildIssues (sessionId : String) (issueIds : ℕ → String) (now : ℕ)
    (vulns : List RawVuln) : List IssueRow :=
  buildIssuesFrom sessionId issueIds now 0 vulns

/-- `startAnalysis` (src/unnamed/part_006, lines 295-443), after
authentication and input validation: verify project ownership (`404 Project
not found` when the project is absent or not owned), run `analyzeCode` on the
project content, aggregate, insert the session row and the finding rows, and
answer 201 with both.  The generated session id, issue ids and the clock are
opaque parameters; the `lastAnalyzedAt` bump of the project only touches
fields outside the model. -/
def startAnalysis (db : DB) (apiKeyId projectId sessionId : String)
    (issueIds : ℕ → String) (now : ℕ) (outcome : AIOutcome) :
    ApiResult (SessionRow × List IssueRow) × DB :=
  match db.projects.find?
    (fun p => p.id == projectId && p.apiKeyId == apiKeyId) with
  | none => (ApiResult.err "Project not found" 404, db)
  | some _ =>
    match db.projects.find? (fun p => p.id == projectId) with
    | none => (ApiResult.err "Project not found" 404, db)
    | some project =>
      let vulns := analyzeCode outcome project.name
      let session := buildSession sessionId projectId vulns
      let issues := buildIssues sessionId issueIds now vulns
      (ApiResult.ok 201 (session, issues),
        { db with
          sessions := db.sessions ++ [session]
          issues := db.issues ++ issues })

/-!  ## Definitions written from the specification's words

These are not translations of the source; they restate formulas of the spec
so that the source-derived definitions can be compared against them. -/

/-- The spec's `clamp(x, lo, hi)`. -/
def clamp (x lo hi : ℚ) : ℚ := min hi (max lo x)

/-- Helper for `firstBalancedObject`: scan for the closing brace matching an
already-open brace, tracking nesting depth. -/
def balancedClose (depth : ℕ) (acc : List Char) : List Char →
    Option (List Char)
  | [] => none
  | c :: rest =>
    if c = lbrace then balancedClose (depth + 1) (acc ++ [c]) rest
    else if c = rbrace then
      if depth = 1 then some (acc ++ [c])
      else balancedClose (depth - 1) (acc ++ [c]) rest
    else balancedClose depth (acc ++ [c]) rest

/-- The spec's "first balanced top-level `{...}` substring" of a text: the
earliest opening brace from which a depth-balanced closing brace is found. -/
def firstBalancedObject : List Char → Option (List Char)
  | [] => none
  | c :: rest =>
    if c = lbrace then
      match balancedClose 1 [c] rest with
      | some obj => some obj
      | none => firstBalancedObject rest
    else firstBalancedObject rest

/-- What the fallback regex actually yields, stated structurally: the text
from its first opening brace through its last closing brace (empty when that
span does not exist). -/
def firstToLastBrace (cs : List Char) : List Char :=
  match cs.dropWhile (fun c => !(c == lbrace)) with
  | [] => []
  | c :: rest =>
    match takeThroughLastClose rest with
    | some body => c :: body
    | none => []

/-- A finding with the given severity and in-range remaining fields, used to
instantiate the worked examples of the claims. -/
def exampleFinding (s : Severity) : RawVuln :=
  { severity := s
    type := "SQL Injection"
    category := "Input Validation"
    filePath := "src/main.js"
    lineNumber := none
    codeSnippet := none
    description := "0123456789"
    recommendation := "0123456789"
    confidenceScore := none }

/-!  ## Claims -/

/-- C1: for every list of validated findings, the `overallScore` computed by
`startAnalysis` equals `clamp(10 − (3·critical + 2·high + 1·medium +
0.5·low), 0, 10)`; in particular the empty list scores 10, one critical
finding scores 7, two critical plus one high score 2, and four critical
findings clamp to 0. -/
theorem overallScore_eq_clamp :
    (∀ vulns : List RawVuln,
      overallScore vulns =
        clamp
          (10 - (3 * (countSeverity Severity.critical vulns : ℚ) +
            2 * (countSeverity Severity.high vulns : ℚ) +
            1 * (countSeverity Severity.medium vulns : ℚ) +
            (1 / 2) * (countSeverity Severity.low vulns : ℚ))) 0 10) ∧
    overallScore [] = 10 ∧
    overallScore [exampleFinding Severity.critical] = 7 ∧
    overallScore [exampleFinding Severity.critical,
      exampleFinding Severity.critical, exampleFinding Severity.high] = 2 ∧
    overallScore [exampleFinding Severity.critical,
      exampleFinding Severity.critical, exampleFinding Severity.critical,
      exampleFinding Severity.critical] = 0 := by
  have hc1 : issueCounts [exampleFinding Severity.critical] = ⟨1, 0, 0, 0⟩ :=
    by decide
  have hc2 : issueCounts [exampleFinding Severity.critical,
      exampleFinding Severity.critical, exampleFinding Severity.high] =
      ⟨2, 1, 0, 0⟩ := by decide
  have hc3 : issueCounts [exampleFinding Severity.critical,
      exampleFinding Severity.critical, exampleFinding Severity.critical,
      exampleFinding Severity.critical] = ⟨4, 0, 0, 0⟩ := by decide
  refine ⟨fun vulns => ?_, by rfl,
    by simp only [overallScore, hc1]; norm_num [max_def],
    by simp only [overallScore, hc2]; norm_num [max_def],
    by simp only [overallScore, hc3]; norm_num [max_def]⟩
  · rcases vulns with _ | ⟨v, vs⟩
    · norm_num [overallScore, issueCounts, countSeverity, clamp]
    · have hnonneg : (0 : ℚ) ≤
          3 * (countSeverity Severity.critical (v :: vs) : ℚ) +
          2 * (countSeverity Severity.high (v :: vs) : ℚ) +
          1 * (countSeverity Severity.medium (v :: vs) : ℚ) +
          (1 / 2) * (countSeverity Severity.low (v :: vs) : ℚ) := by
        positivity
      simp only [overallScore, issueCounts, clamp, List.length_cons,
        Nat.zero_lt_succ, if_true]
      rw [min_eq_right]
      · ring_nf
      · refine max_le (by norm_num) (by linarith)

/-- C2: for every list of validated findings the four per-severity counts sum
to `totalIssues`, and the invariant holds in the persisted `AnalysisSession`
row: every session row present after `startAnalysis` either predates the call
or satisfies it. -/
theorem counts_sum_eq_totalIssues :
    (∀ vulns : List RawVuln,
      (issueCounts vulns).critical + (issueCounts vulns).high +
        (issueCounts vulns).medium + (issueCounts vulns).low =
        vulns.length) ∧
    (∀ (sid pid : String) (vulns : List RawVuln),
      (buildSession sid pid vulns).criticalIssues +
        (buildSession sid pid vulns).highIssues +
        (buildSession sid pid vulns).mediumIssues +
        (buildSession sid pid vulns).lowIssues =
        (buildSession sid pid vulns).totalIssues) ∧
    (∀ (db : DB) (apiKeyId projectId sessionId : String)
      (issueIds : ℕ → String) (now : ℕ) (outcome : AIOutcome),
      ∀ s ∈ (startAnalysis db apiKeyId projectId sessionId issueIds now
        outcome).2.sessions,
        s ∈ db.sessions ∨
          s.criticalIssues + s.highIssues + s.mediumIssues + s.lowIssues =
            s.totalIssues) := by
  have hsum : ∀ vulns : List RawVuln,
      (issueCounts vulns).critical + (issueCounts vulns).high +
        (issueCounts vulns).medium + (issueCounts vulns).low =
        vulns.length := by
    intro vulns
    induction vulns with
    | nil => rfl
    | cons v vs ih =>
      simp only [issueCounts, countSeverity, List.filter_cons] at ih ⊢
      cases v.severity <;> simp <;> omega
  refine ⟨hsum, fun sid pid vulns => hsum vulns, ?_⟩
  intro db apiKeyId projectId sessionId issueIds now outcome s hs
  unfold startAnalysis at hs
  rcases hfind : db.projects.find?
      (fun p => p.id == projectId && p.apiKeyId == apiKeyId) with _ | proj
  · rw [hfind] at hs
    exact Or.inl hs
  · rw [hfind] at hs
    rcases hfind2 : db.projects.find? (fun p => p.id == projectId) with
      _ | project
    · rw [hfind2] at hs
      exact Or.inl hs
    · rw [hfind2] at hs
      simp only [List.mem_append, List.mem_singleton] at hs
      rcases hs with hs | hs
      · exact Or.inl hs
      · subst hs
        exact Or.inr (hsum _)

/-- The failure modes of the reasoning-service call that `analyzeCode`
absorbs: a thrown error, an empty response text, a response without a JSON
candidate, a candidate rejected by `JSON.parse`, or a payload rejected by the
schema. -/
def upstreamFailed : AIOutcome → Bool
  | AIOutcome.failure => true
  | AIOutcome.success t =>
    t == "" || extractCandidate t.data == [] ||
      (match jsonParse (String.mk (extractCandidate t.data)) with
       | none => true
       | some v => (VulnerabilityDetectionSchema v).isNone)

/-- Every absorbed upstream failure makes `analyzeCode` yield the empty
finding list. -/
theorem analyzeCode_of_upstreamFailed (o : AIOutcome) (name : String)
    (h : upstreamFailed o = true) : analyzeCode o name = [] := by
  cases o with
  | failure => rfl
  | success t =>
    by_cases ht : t = ""
    · simp [analyzeCode, extractFindings, ht]
    · simp only [upstreamFailed, Bool.or_eq_true, beq_iff_eq] at h
      by_cases hc : extractCandidate t.data = []
      · simp [analyzeCode, extractFindings, ht, hc]
      · rcases h with (h | h) | h
        · exact absurd h ht
        · exact absurd h hc
        · rcases hj : jsonParse (String.mk (extractCandidate t.data)) with
            _ | v
          · simp [analyzeCode, extractFindings, ht, hc, hj]
          · rw [hj] at h
            simp only [Option.isNone_iff_eq_none] at h
            simp [analyzeCode, extractFindings, ht, hc, hj, h]

/-- C3: whenever the reasoning-service call fails (throws, yields empty text,
or yields unparseable output) and the project is owned by the caller,
`startAnalysis` still succeeds: it answers 201 and persists a session with
`status = completed`, `totalIssues = 0` and `overallScore = 10`, with no
finding rows; the upstream failure is never surfaced as an error. -/
theorem startAnalysis_absorbs_upstream_failure :
    ∀ (db : DB) (apiKeyId projectId sessionId : String)
      (issueIds : ℕ → String) (now : ℕ) (outcome : AIOutcome)
      (proj : Project),
      db.projects.find?
        (fun p => p.id == projectId && p.apiKeyId == apiKeyId) = some proj →
      upstreamFailed outcome = true →
      startAnalysis db apiKeyId projectId sessionId issueIds now outcome =
        (ApiResult.ok 201 (buildSession sessionId projectId [], []),
          { db with
            sessions := db.sessions ++ [buildSession sessionId projectId []] }) ∧
      (buildSession sessionId projectId []).status = "completed" ∧
      (buildSession sessionId projectId []).totalIssues = 0 ∧
      (buildSession sessionId projectId []).overallScore = 10 := by
  intro db apiKeyId projectId sessionId issueIds now outcome proj hfind hfail
  have hmem := List.mem_of_find?_eq_some hfind
  have hpred := List.find?_some hfind
  rw [Bool.and_eq_true] at hpred
  have hsome : (db.projects.find? (fun p => p.id == projectId)).isSome := by
    rw [List.find?_isSome]
    exact ⟨proj, hmem, hpred.1⟩
  obtain ⟨project, hfind2⟩ := Option.isSome_iff_exists.mp hsome
  refine ⟨?_, rfl, rfl, rfl⟩
  simp only [startAnalysis, hfind, hfind2,
    analyzeCode_of_upstreamFailed outcome project.name hfail]
  simp [buildIssues, buildIssuesFrom]

/-- Witness for C3 at a concrete store: the project is owned and the
reasoning call throws, yet the handler succeeds with an empty, perfect-score
session. -/
theorem startAnalysis_absorbs_upstream_failure_witness :
    startAnalysis ⟨[⟨"p1", "k1", "proj", "code"⟩], [], []⟩ "k1" "p1" "s1"
        (fun _ => "i1") 0 AIOutcome.failure =
      (ApiResult.ok 201 (buildSession "s1" "p1" [], []),
        ⟨[⟨"p1", "k1", "proj", "code"⟩], [buildSession "s1" "p1" []], []⟩) ∧
      (buildSession "s1" "p1" []).status = "completed" ∧
      (buildSession "s1" "p1" []).totalIssues = 0 ∧
      (buildSession "s1" "p1" []).overallScore = 10 := by
  have h := startAnalysis_absorbs_upstream_failure
    ⟨[⟨"p1", "k1", "proj", "code"⟩], [], []⟩ "k1" "p1" "s1" (fun _ => "i1") 0
    AIOutcome.failure ⟨"p1", "k1", "proj", "code"⟩ (by decide) (by decide)
  simpa using h

/-- C10: the persisted `confidenceScore` equals the supplied value exactly
when one is present and nonzero; an omitted score and an explicit `0` (which
the schema accepts) are both stored as `0.8`. -/
theorem confidenceScore_persisted :
    (∀ q : ℚ, q ≠ 0 → confidenceOrDefault (some q) = q) ∧
    confidenceOrDefault (some 0) = 8 / 10 ∧
    confidenceOrDefault none = 8 / 10 ∧
    parseConfidence (some (Json.num 0)) = some (some 0) ∧
    (∀ (sessionId : String) (issueIds : ℕ → String) (now k : ℕ)
      (vulns : List RawVuln),
      List.Forall₂
        (fun (v : RawVuln) (i : IssueRow) =>
          i.confidenceScore = confidenceOrDefault v.confidenceScore)
        vulns (buildIssuesFrom sessionId issueIds now k vulns)) := by
  refine ⟨fun q hq => by simp [confidenceOrDefault, hq],
    by simp [confidenceOrDefault], rfl, by norm_num [parseConfidence], ?_⟩
  intro sessionId issueIds now k vulns
  induction vulns generalizing k with
  | nil => exact List.Forall₂.nil
  | cons v vs ih =>
    exact List.Forall₂.cons rfl (ih (k + 1))

/-- Witness for C10: a supplied nonzero score is preserved verbatim. -/
theorem confidenceScore_persisted_witness :
    (1 : ℚ) / 2 ≠ 0 ∧ confidenceOrDefault (some ((1 : ℚ) / 2)) = 1 / 2 :=
  ⟨by norm_num, confidenceScore_persisted.1 ((1 : ℚ) / 2) (by norm_num)⟩

/-!  ## Helper lemmas about the single-row updates -/

theorem setResolved_id (iid : String) (i : IssueRow) :
    (setResolved iid i).id = i.id := by
  unfold setResolved; split <;> rfl

theorem setResolved_sessionId (iid : String) (i : IssueRow) :
    (setResolved iid i).analysisSessionId = i.analysisSessionId := by
  unfold setResolved; split <;> rfl

theorem setFalsePositive_id (iid : String) (i : IssueRow) :
    (setFalsePositive iid i).id = i.id := by
  unfold setFalsePositive; split <;> rfl

theorem setFalsePositive_sessionId (iid : String) (i : IssueRow) :
    (setFalsePositive iid i).analysisSessionId = i.analysisSessionId := by
  unfold setFalsePositive; split <;> rfl

theorem issueOwner_of_sessionId_eq (db : DB) (i j : IssueRow)
    (h : i.analysisSessionId = j.analysisSessionId) :
    issueOwner db i = issueOwner db j := by
  unfold issueOwner; rw [h]

/-- `find?` by id over a list mapped with an id-preserving update. -/
theorem find?_map_idPreserving (f : IssueRow → IssueRow)
    (hid : ∀ i, (f i).id = i.id) (iid : String) :
    ∀ l : List IssueRow,
      (l.map f).find? (fun i => i.id == iid) =
        (l.find? (fun i => i.id == iid)).map f := by
  intro l
  induction l with
  | nil => rfl
  | cons i l ih =>
    by_cases hi : (i.id == iid) = true
    · simp [List.find?_cons, hid, hi]
    · simp only [Bool.not_eq_true] at hi
      simp [List.find?_cons, hid, hi, ih]

/-- C7: for every principal and target id, retrieval, export, resolve and
mark-false-positive answer the same `404` NotFound error whether the target
is absent or exists under a different owner, and none of them ever answers a
`403` Forbidden-style error. -/
theorem ownership_notFound_indistinguishable :
    ∀ (db : DB) (apiKeyId sessionId issueId format : String),
      ((db.sessions.find? (fun s => s.id == sessionId) = none ∨
        (∃ s, db.sessions.find? (fun s' => s'.id == sessionId) = some s ∧
          sessionOwner db s ≠ some apiKeyId)) →
        getAnalysisResults db apiKeyId sessionId =
          ApiResult.err "Analysis session not found" 404 ∧
        exportAnalysis db apiKeyId sessionId format =
          ApiResult.err "Analysis session not found" 404) ∧
      ((db.issues.find? (fun i => i.id == issueId) = none ∨
        (∀ i ∈ db.issues, i.id = issueId →
          issueOwner db i ≠ some apiKeyId)) →
        (resolveIssue db apiKeyId issueId).1 =
          ApiResult.err "Issue not found" 404 ∧
        (markFalsePositive db apiKeyId issueId).1 =
          ApiResult.err "Issue not found" 404) ∧
      (∀ m, getAnalysisResults db apiKeyId sessionId ≠ ApiResult.err m 403) ∧
      (∀ m, exportAnalysis db apiKeyId sessionId format ≠
        ApiResult.err m 403) ∧
      (∀ m, (resolveIssue db apiKeyId issueId).1 ≠ ApiResult.err m 403) ∧
      (∀ m, (markFalsePositive db apiKeyId issueId).1 ≠
        ApiResult.err m 403) := by
  intro db apiKeyId sessionId issueId format
  refine ⟨?_, ?_, ?_, ?_, ?_, ?_⟩
  · rintro (hnone | ⟨s, hs, howner⟩)
    · simp [getAnalysisResults, exportAnalysis, hnone]
    · have hb : (sessionOwner db s == some apiKeyId) = false :=
        beq_eq_false_iff_ne.mpr howner
      simp [getAnalysisResults, exportAnalysis, hs, hb]
  · intro hyp
    have hnone : db.issues.find?
        (fun i => i.id == issueId && issueOwner db i == some apiKeyId) =
        none := by
      rw [List.find?_eq_none]
      intro i hi
      rcases hyp with hnone | hall
      · have hni := List.find?_eq_none.mp hnone i hi
        simp only [Bool.not_eq_true] at hni
        simp [hni]
      · by_cases hid : i.id = issueId
        · have hb : (issueOwner db i == some apiKeyId) = false :=
            beq_eq_false_iff_ne.mpr (hall i hi hid)
          simp [hb]
        · have hb : (i.id == issueId) = false := beq_eq_false_iff_ne.mpr hid
          simp [hb]
    have hv : verifyIssueOwnership db issueId apiKeyId = false := by
      unfold verifyIssueOwnership
      rw [hnone]
      rfl
    exact ⟨by simp [resolveIssue, hv], by simp [markFalsePositive, hv]⟩
  · intro m
    rcases hf : db.sessions.find? (fun s => s.id == sessionId) with _ | s
    · simp [getAnalysisResults, hf]
    · by_cases ho : (sessionOwner db s == some apiKeyId) = true
      · simp [getAnalysisResults, hf, ho]
      · simp only [Bool.not_eq_true] at ho
        simp [getAnalysisResults, hf, ho]
  · intro m
    rcases hf : db.sessions.find? (fun s => s.id == sessionId) with _ | s
    · simp [exportAnalysis, hf]
    · by_cases ho : (sessionOwner db s == some apiKeyId) = true
      · by_cases hfmt : format = "pdf" <;> simp [exportAnalysis, hf, ho, hfmt]
      · simp only [Bool.not_eq_true] at ho
        simp [exportAnalysis, hf, ho]
  · intro m
    by_cases hv : verifyIssueOwnership db issueId apiKeyId = true
    · simp [resolveIssue, hv]
    · simp only [Bool.not_eq_true] at hv
      simp [resolveIssue, hv]
  · intro m
    by_cases hv : verifyIssueOwnership db issueId apiKeyId = true
    · simp [markFalsePositive, hv]
    · simp only [Bool.not_eq_true] at hv
      simp [markFalsePositive, hv]

theorem setResolved_idem (iid : String) (i : IssueRow) :
    setResolved iid (setResolved iid i) = setResolved iid i := by
  by_cases h : (i.id == iid) = true
  · simp [setResolved, h]
  · simp only [Bool.not_eq_true] at h
    simp [setResolved, h]

/-- C8: when the finding exists and is owned by the caller, resolving twice
succeeds both times with the same `resolved = true` row, the second call is a
complete no-op on the store, and an error is answered only when the
ownership check fails (absent or not-owned id). -/
theorem resolveIssue_twice_idempotent :
    ∀ (db : DB) (apiKeyId issueId : String),
      (verifyIssueOwnership db issueId apiKeyId = true →
        ∃ i1 : IssueRow,
          (resolveIssue db apiKeyId issueId).1 =
            ApiResult.ok 200 (some i1) ∧
          i1.resolved = true ∧
          (resolveIssue (resolveIssue db apiKeyId issueId).2 apiKeyId
            issueId).1 = ApiResult.ok 200 (some i1) ∧
          (resolveIssue (resolveIssue db apiKeyId issueId).2 apiKeyId
            issueId).2 = (resolveIssue db apiKeyId issueId).2) ∧
      (∀ (m : String) (st : ℕ),
        (resolveIssue db apiKeyId issueId).1 = ApiResult.err m st →
        verifyIssueOwnership db issueId apiKeyId = false) := by
  intro db apiKeyId issueId
  constructor
  · intro hv
    have hex := List.find?_isSome.mp (by
      unfold verifyIssueOwnership at hv
      exact hv)
    obtain ⟨i0, hi0mem, hi0p⟩ := hex
    rw [Bool.and_eq_true] at hi0p
    have hwsome : (db.issues.find? (fun i => i.id == issueId)).isSome :=
      List.find?_isSome.mpr ⟨i0, hi0mem, hi0p.1⟩
    obtain ⟨j0, hj0⟩ := Option.isSome_iff_exists.mp hwsome
    have hj0id : (j0.id == issueId) = true := by
      have := List.find?_some hj0
      simpa using this
    have hfind1 : (db.issues.map (setResolved issueId)).find?
        (fun i => i.id == issueId) = some (setResolved issueId j0) := by
      rw [find?_map_idPreserving (setResolved issueId)
        (setResolved_id issueId) issueId, hj0]
      rfl
    have hdb1 : (resolveIssue db apiKeyId issueId).2 =
        { db with issues := db.issues.map (setResolved issueId) } := by
      simp [resolveIssue, hv]
    have hv1 : verifyIssueOwnership
        { db with issues := db.issues.map (setResolved issueId) } issueId
        apiKeyId = true := by
      unfold verifyIssueOwnership
      rw [List.find?_isSome]
      refine ⟨setResolved issueId i0, List.mem_map_of_mem _ hi0mem, ?_⟩
      rw [Bool.and_eq_true]
      refine ⟨by rw [setResolved_id]; exact hi0p.1, ?_⟩
      have howner : issueOwner
          { db with issues := db.issues.map (setResolved issueId) }
          (setResolved issueId i0) = issueOwner db i0 := by
        unfold issueOwner
        rw [setResolved_sessionId]
      rw [howner]
      exact hi0p.2
    have hfind2 : ((db.issues.map (setResolved issueId)).map
        (setResolved issueId)).find? (fun i => i.id == issueId) =
        some (setResolved issueId j0) := by
      rw [find?_map_idPreserving (setResolved issueId)
        (setResolved_id issueId) issueId, hfind1]
      simp [setResolved_idem]
    refine ⟨setResolved issueId j0, ?_, ?_, ?_, ?_⟩
    · simp [resolveIssue, hv, hfind1]
    · simp [setResolved, hj0id]
    · rw [hdb1]
      simp only [resolveIssue, hv1, if_true]
      rw [hfind2]
    · rw [hdb1]
      simp only [resolveIssue, hv1, if_true]
      have hmaps : (db.issues.map (setResolved issueId)).map
          (setResolved issueId) = db.issues.map (setResolved issueId) := by
        rw [List.map_map]
        exact List.map_congr_left (fun a _ => setResolved_idem issueId a)
      simp [hmaps]
  · intro m st herr
    by_cases hv : verifyIssueOwnership db issueId apiKeyId = true
    · simp [resolveIssue, hv] at herr
    · simp only [Bool.not_eq_true] at hv
      exact hv

/-- All `IssueRow` fields agree except possibly `resolved`. -/
def agreeExceptResolved (a b : IssueRow) : Prop :=
  a.id = b.id ∧ a.analysisSessionId = b.analysisSessionId ∧
  a.severity = b.severity ∧ a.type = b.type ∧ a.category = b.category ∧
  a.filePath = b.filePath ∧ a.lineNumber = b.lineNumber ∧
  a.codeSnippet = b.codeSnippet ∧ a.description = b.description ∧
  a.recommendation = b.recommendation ∧
  a.confidenceScore = b.confidenceScore ∧
  a.falsePositive = b.falsePositive ∧ a.createdAt = b.createdAt

/-- All `IssueRow` fields agree except possibly `falsePositive`. -/
def agreeExceptFalsePositive (a b : IssueRow) : Prop :=
  a.id = b.id ∧ a.analysisSessionId = b.analysisSessionId ∧
  a.severity = b.severity ∧ a.type = b.type ∧ a.category = b.category ∧
  a.filePath = b.filePath ∧ a.lineNumber = b.lineNumber ∧
  a.codeSnippet = b.codeSnippet ∧ a.description = b.description ∧
  a.recommendation = b.recommendation ∧
  a.confidenceScore = b.confidenceScore ∧
  a.resolved = b.resolved ∧ a.createdAt = b.createdAt

/-- All `IssueRow` fields agree except possibly the two toggle fields. -/
def agreeExceptToggles (a b : IssueRow) : Prop :=
  a.id = b.id ∧ a.analysisSessionId = b.analysisSessionId ∧
  a.severity = b.severity ∧ a.type = b.type ∧ a.category = b.category ∧
  a.filePath = b.filePath ∧ a.lineNumber = b.lineNumber ∧
  a.codeSnippet = b.codeSnippet ∧ a.description = b.description ∧
  a.recommendation = b.recommendation ∧
  a.confidenceScore = b.confidenceScore ∧ a.createdAt = b.createdAt

theorem forall₂_self_of {α : Type} {R : α → α → Prop} (h : ∀ a : α, R a a) :
    ∀ l : List α, List.Forall₂ R l l := by
  intro l
  induction l with
  | nil => exact List.Forall₂.nil
  | cons a l ih => exact List.Forall₂.cons (h a) ih

theorem forall₂_map_self {α : Type} {R : α → α → Prop} (f : α → α)
    (h : ∀ a : α, R a (f a)) : ∀ l : List α, List.Forall₂ R l (l.map f) := by
  intro l
  induction l with
  | nil => exact List.Forall₂.nil
  | cons a l ih => exact List.Forall₂.cons (h a) ih

theorem agreeExceptResolved_setResolved (iid : String) (i : IssueRow) :
    agreeExceptResolved i (setResolved iid i) := by
  unfold setResolved
  split <;> exact ⟨rfl, rfl, rfl, rfl, rfl, rfl, rfl, rfl, rfl, rfl, rfl,
    rfl, rfl⟩

theorem agreeExceptFalsePositive_setFalsePositive (iid : String)
    (i : IssueRow) : agreeExceptFalsePositive i (setFalsePositive iid i) := by
  unfold setFalsePositive
  split <;> exact ⟨rfl, rfl, rfl, rfl, rfl, rfl, rfl, rfl, rfl, rfl, rfl,
    rfl, rfl⟩

theorem agreeExceptToggles_applyBulkUpdate (rf fp : Option Bool)
    (i : IssueRow) : agreeExceptToggles i (applyBulkUpdate rf fp i) := by
  unfold applyBulkUpdate
  rcases rf with _ | b <;> rcases fp with _ | b' <;>
    exact ⟨rfl, rfl, rfl, rfl, rfl, rfl, rfl, rfl, rfl, rfl, rfl, rfl⟩

/-- C9: `resolveIssue` mutates only the `resolved` field of finding rows,
`markFalsePositive` only the `falsePositive` field, and the only remaining
post-creation mutation of findings in the source, `bulkUpdateIssues`, mutates
only those two toggle fields; all three leave the project and session tables
untouched.  (The only other write to `securityIssuesTable` in the repository
is the insert of `startAnalysis` and the cascade delete of project removal.) -/
theorem toggle_updates_frame :
    ∀ (db : DB) (apiKeyId issueId : String) (issueIds : List String)
      (rf fp : Option Bool),
      ((resolveIssue db apiKeyId issueId).2.projects = db.projects ∧
        (resolveIssue db apiKeyId issueId).2.sessions = db.sessions ∧
        List.Forall₂ agreeExceptResolved db.issues
          (resolveIssue db apiKeyId issueId).2.issues) ∧
      ((markFalsePositive db apiKeyId issueId).2.projects = db.projects ∧
        (markFalsePositive db apiKeyId issueId).2.sessions = db.sessions ∧
        List.Forall₂ agreeExceptFalsePositive db.issues
          (markFalsePositive db apiKeyId issueId).2.issues) ∧
      ((bulkUpdateIssues db apiKeyId issueIds rf fp).2.projects =
          db.projects ∧
        (bulkUpdateIssues db apiKeyId issueIds rf fp).2.sessions =
          db.sessions ∧
        List.Forall₂ agreeExceptToggles db.issues
          (bulkUpdateIssues db apiKeyId issueIds rf fp).2.issues) := by
  intro db apiKeyId issueId issueIds rf fp
  have hR : ∀ a : IssueRow, agreeExceptResolved a a := fun a =>
    ⟨rfl, rfl, rfl, rfl, rfl, rfl, rfl, rfl, rfl, rfl, rfl, rfl, rfl⟩
  have hF : ∀ a : IssueRow, agreeExceptFalsePositive a a := fun a =>
    ⟨rfl, rfl, rfl, rfl, rfl, rfl, rfl, rfl, rfl, rfl, rfl, rfl, rfl⟩
  have hT : ∀ a : IssueRow, agreeExceptToggles a a := fun a =>
    ⟨rfl, rfl, rfl, rfl, rfl, rfl, rfl, rfl, rfl, rfl, rfl, rfl⟩
  refine ⟨?_, ?_, ?_⟩
  · by_cases hv : verifyIssueOwnership db issueId apiKeyId = true
    · refine ⟨by simp [resolveIssue, hv], by simp [resolveIssue, hv], ?_⟩
      simp only [resolveIssue, hv, if_true]
      exact forall₂_map_self _ (agreeExceptResolved_setResolved issueId)
        db.issues
    · simp only [Bool.not_eq_true] at hv
      refine ⟨by simp [resolveIssue, hv], by simp [resolveIssue, hv], ?_⟩
      simp only [resolveIssue, hv, Bool.false_eq_true, if_false]
      exact forall₂_self_of hR db.issues
  · by_cases hv : verifyIssueOwnership db issueId apiKeyId = true
    · refine ⟨by simp [markFalsePositive, hv],
        by simp [markFalsePositive, hv], ?_⟩
      simp only [markFalsePositive, hv, if_true]
      exact forall₂_map_self _
        (agreeExceptFalsePositive_setFalsePositive issueId) db.issues
    · simp only [Bool.not_eq_true] at hv
      refine ⟨by simp [markFalsePositive, hv],
        by simp [markFalsePositive, hv], ?_⟩
      simp only [markFalsePositive, hv, Bool.false_eq_true, if_false]
      exact forall₂_self_of hF db.issues
  · by_cases hu : issueIds.filter
        (fun id => !((bulkOwnedIds db apiKeyId issueIds).contains id)) ≠ []
    · simp only [bulkUpdateIssues, if_pos hu]
      exact ⟨trivial, trivial, forall₂_self_of hT db.issues⟩
    · by_cases hflags : rf.isNone = true ∧ fp.isNone = true
      · simp only [bulkUpdateIssues, if_neg hu, if_pos hflags]
        exact ⟨trivial, trivial, forall₂_self_of hT db.issues⟩
      · simp only [bulkUpdateIssues, if_neg hu, if_neg hflags]
        refine ⟨trivial, trivial, ?_⟩
        refine forall₂_map_self _ (fun a => ?_) db.issues
        by_cases hc : ((bulkOwnedIds db apiKeyId issueIds).contains a.id) =
            true
        · simp only [hc, if_true]
          exact agreeExceptToggles_applyBulkUpdate rf fp a
        · simp only [Bool.not_eq_true] at hc
          simp only [hc, Bool.false_eq_true, if_false]
          exact hT a

/-- A concrete store used by the witnesses: one project owned by key `k1`,
one completed session, one finding. -/
def exProject : Project := ⟨"p1", "k1", "proj", "code"⟩

/-- The session row of the concrete store. -/
def exSession : SessionRow := buildSession "s1" "p1" []

/-- The finding row of the concrete store. -/
def exIssue : IssueRow :=
  buildIssue "i1" "s1" 0 (exampleFinding Severity.critical)

/-- The concrete store. -/
def exDB : DB := ⟨[exProject], [exSession], [exIssue]⟩

/-- Witness for C7: against the concrete store, a different principal `k2`
receives exactly the NotFound errors for an existing session and an existing
finding it does not own. -/
theorem ownership_notFound_indistinguishable_witness :
    getAnalysisResults exDB "k2" "s1" =
      ApiResult.err "Analysis session not found" 404 ∧
    (resolveIssue exDB "k2" "i1").1 = ApiResult.err "Issue not found" 404 := by
  have h := ownership_notFound_indistinguishable exDB "k2" "s1" "i1" "json"
  exact ⟨(h.1 (Or.inr ⟨exSession, by decide, by decide⟩)).1,
    (h.2.1 (Or.inr (by decide))).1⟩

/-- Witness for C8: the owner resolves the concrete finding twice; both calls
succeed with `resolved = true` and the second is a no-op. -/
theorem resolveIssue_twice_idempotent_witness :
    verifyIssueOwnership exDB "i1" "k1" = true ∧
    ∃ i1 : IssueRow,
      (resolveIssue exDB "k1" "i1").1 = ApiResult.ok 200 (some i1) ∧
      i1.resolved = true ∧
      (resolveIssue (resolveIssue exDB "k1" "i1").2 "k1" "i1").1 =
        ApiResult.ok 200 (some i1) ∧
      (resolveIssue (resolveIssue exDB "k1" "i1").2 "k1" "i1").2 =
        (resolveIssue exDB "k1" "i1").2 :=
  ⟨by decide, (resolveIssue_twice_idempotent exDB "k1" "i1").1 (by decide)⟩

/-- Witness for C2: the session row persisted by a run on the concrete store
satisfies the count-sum invariant. -/
theorem counts_sum_eq_totalIssues_witness :
    buildSession "s2" "p1" [] ∈
      (startAnalysis exDB "k1" "p1" "s2" (fun _ => "j") 0
        AIOutcome.failure).2.sessions ∧
    (buildSession "s2" "p1" [] ∈ exDB.sessions ∨
      (buildSession "s2" "p1" []).criticalIssues +
        (buildSession "s2" "p1" []).highIssues +
        (buildSession "s2" "p1" []).mediumIssues +
        (buildSession "s2" "p1" []).lowIssues =
        (buildSession "s2" "p1" []).totalIssues) := by
  have hmem : buildSession "s2" "p1" [] ∈
      (startAnalysis exDB "k1" "p1" "s2" (fun _ => "j") 0
        AIOutcome.failure).2.sessions := by decide
  exact ⟨hmem, counts_sum_eq_totalIssues.2.2 exDB "k1" "p1" "s2"
    (fun _ => "j") 0 AIOutcome.failure _ hmem⟩

/-- If any entry of the array fails validation, the whole traversal fails. -/
theorem parseVulns_eq_none {items : List Json} {item : Json}
    (hmem : item ∈ items) (hnone : parseVuln item = none) :
    parseVulns items = none := by
  induction items with
  | nil => cases hmem
  | cons a l ih =>
    rcases List.mem_cons.mp hmem with h | h
    · subst h
      simp [parseVulns, hnone]
    · rcases ha : parseVuln a with _ | v <;> simp [parseVulns, ha, ih h]

/-- The empty candidate string never parses. -/
theorem jsonParse_empty : jsonParse (String.mk []) = none := rfl

/-- C4: if the extracted candidate parses as an object whose
`vulnerabilities` list contains even one entry that fails schema validation,
the entire batch is rejected and extraction yields the empty list — valid
entries of the same payload are not kept. -/
theorem batch_rejected_on_single_invalid_entry :
    ∀ (text projectName : String) (j : Json) (items : List Json)
      (item : Json),
      jsonParse (String.mk (extractCandidate text.data)) = some j →
      getVulnArray j = some items →
      item ∈ items →
      parseVuln item = none →
      extractFindings text projectName = [] := by
  intro text projectName j items item hparse harr hmem hbad
  have hcand : extractCandidate text.data ≠ [] := by
    intro hc
    rw [hc, jsonParse_empty] at hparse
    cases hparse
  have htext : text ≠ "" := by
    intro ht
    subst ht
    exact hcand rfl
  have hschema : VulnerabilityDetectionSchema j = none := by
    unfold VulnerabilityDetectionSchema
    rw [harr]
    simpa using parseVulns_eq_none hmem hbad
  simp [extractFindings, htext, hcand, hparse, hschema]

/-- A schema-valid entry of a `vulnerabilities` payload. -/
def cfourGood : Json :=
  Json.obj [("severity", Json.str "critical"), ("type", Json.str "XSS"),
    ("category", Json.str "Input Validation"),
    ("filePath", Json.str "a.js"),
    ("description", Json.str "0123456789"),
    ("recommendation", Json.str "0123456789")]

/-- An entry with a non-enum severity, rejected by the schema. -/
def cfourBad : Json :=
  Json.obj [("severity", Json.str "bogus"), ("type", Json.str "XSS"),
    ("category", Json.str "Input Validation"),
    ("filePath", Json.str "a.js"),
    ("description", Json.str "0123456789"),
    ("recommendation", Json.str "0123456789")]

/-- The parsed payload holding one valid and one invalid entry. -/
def cfourJson : Json :=
  Json.obj [("vulnerabilities", Json.arr [cfourGood, cfourBad])]

/-- The raw text of that payload. -/
def cfourText : String :=
  "\x7b\"vulnerabilities\":[\x7b\"severity\":\"critical\",\"type\":\"XSS\",\"category\":\"Input Validation\",\"filePath\":\"a.js\",\"description\":\"0123456789\",\"recommendation\":\"0123456789\"\x7d,\x7b\"severity\":\"bogus\",\"type\":\"XSS\",\"category\":\"Input Validation\",\"filePath\":\"a.js\",\"description\":\"0123456789\",\"recommendation\":\"0123456789\"\x7d]\x7d"

/-- Witness for C4: the payload contains a valid entry and an invalid one;
extraction returns the empty list, keeping nothing. -/
theorem batch_rejected_on_single_invalid_entry_witness :
    (parseVuln cfourGood).isSome = true ∧
    parseVuln cfourBad = none ∧
    extractFindings cfourText "proj" = [] := by
  refine ⟨rfl, rfl, ?_⟩
  exact batch_rejected_on_single_invalid_entry cfourText "proj" cfourJson
    [cfourGood, cfourBad] cfourBad rfl rfl
    (List.Mem.tail _ (List.Mem.head _)) rfl

theorem takeThroughLastClose_none_iff (cs : List Char) :
    takeThroughLastClose cs = none ↔ ∀ c ∈ cs, c ≠ rbrace := by
  have hm : takeThroughLastClose cs = none ↔
      cs.reverse.dropWhile (fun c => !(c == rbrace)) = [] := by
    unfold takeThroughLastClose
    rcases h : cs.reverse.dropWhile (fun c => !(c == rbrace)) with _ | ⟨a, l⟩
      <;> simp
  rw [hm, List.dropWhile_eq_nil_iff]
  constructor
  · intro h c hc hce
    have hmemb := h c (List.mem_reverse.mpr hc)
    subst hce
    simp at hmemb
  · intro h c hc
    have hne := h c (List.mem_reverse.mp hc)
    simpa using hne

theorem braceSearch_none_of_no_rbrace :
    ∀ cs : List Char, (∀ c ∈ cs, c ≠ rbrace) → braceSearch cs = none := by
  intro cs
  induction cs with
  | nil => intro _; rfl
  | cons c rest ih =>
    intro h
    by_cases hc : c = lbrace
    · subst hc
      simp only [braceSearch, if_pos rfl]
      rw [(takeThroughLastClose_none_iff rest).mpr
        (fun x hx => h x (List.Mem.tail _ hx))]
      exact ih (fun x hx => h x (List.Mem.tail _ hx))
    · simp only [braceSearch, if_neg hc]
      exact ih (fun x hx => h x (List.Mem.tail _ hx))

/-- What the fallback regex yields coincides with the first-to-last-brace
span. -/
theorem braceSearch_eq_firstToLastBrace : ∀ cs : List Char,
    (match braceSearch cs with
     | some m => m
     | none => ([] : List Char)) = firstToLastBrace cs := by
  intro cs
  induction cs with
  | nil => rfl
  | cons c rest ih =>
    by_cases hc : c = lbrace
    · subst hc
      have hpred : (!(lbrace == lbrace)) = false := by simp
      rcases ht : takeThroughLastClose rest with _ | body
      · have hbs : braceSearch rest = none :=
          braceSearch_none_of_no_rbrace rest
            ((takeThroughLastClose_none_iff rest).mp ht)
        simp only [braceSearch, if_pos rfl, ht, hbs, firstToLastBrace,
          List.dropWhile_cons, hpred, Bool.false_eq_true, if_false]
        simp
      · simp only [braceSearch, if_pos rfl, ht, firstToLastBrace,
          List.dropWhile_cons, hpred, Bool.false_eq_true, if_false]
        simp
    · have hpred : (!(c == lbrace)) = true := by simp [hc]
      simp only [braceSearch, if_neg hc, firstToLastBrace,
        List.dropWhile_cons, hpred, if_true]
      rw [ih]
      rfl

/-- C6 counterexample: on this fence-free input the candidate the code
selects is the whole first-to-last-brace span, which differs from the first
balanced top-level object. -/
theorem candidate_not_first_balanced :
    codeBlockSearch ("\x7b\"a\":1\x7d x \x7b\"b\":2\x7d").data = none ∧
    firstBalancedObject ("\x7b\"a\":1\x7d x \x7b\"b\":2\x7d").data =
      some ("\x7b\"a\":1\x7d").data ∧
    extractCandidate ("\x7b\"a\":1\x7d x \x7b\"b\":2\x7d").data =
      ("\x7b\"a\":1\x7d x \x7b\"b\":2\x7d").data ∧
    ¬ extractCandidate ("\x7b\"a\":1\x7d x \x7b\"b\":2\x7d").data =
      ("\x7b\"a\":1\x7d").data := by
  exact ⟨by decide, by decide, by decide, by decide⟩

/-- C6 (amended): when no fenced block matches, the candidate payload is the
span from the first opening brace through the last closing brace of the text
(the greedy regex `\{[\s\S]*\}`), not the first balanced object in general;
on the claim's example `{"a":1} trailing prose {` the two coincide and later
unmatched braces are excluded. -/
theorem candidate_is_first_to_last_brace :
    (∀ text : String, codeBlockSearch text.data = none →
      extractCandidate text.data = firstToLastBrace text.data) ∧
    extractCandidate ("\x7b\"a\":1\x7d trailing prose \x7b").data =
      ("\x7b\"a\":1\x7d").data ∧
    firstBalancedObject ("\x7b\"a\":1\x7d trailing prose \x7b").data =
      some ("\x7b\"a\":1\x7d").data := by
  refine ⟨fun text h => ?_, by decide, by decide⟩
  simp only [extractCandidate, h]
  exact braceSearch_eq_firstToLastBrace text.data

/-- Witness for the amended C6 on the claim's own example input. -/
theorem candidate_is_first_to_last_brace_witness :
    codeBlockSearch ("\x7b\"a\":1\x7d trailing prose \x7b").data = none ∧
    extractCandidate ("\x7b\"a\":1\x7d trailing prose \x7b").data =
      firstToLastBrace ("\x7b\"a\":1\x7d trailing prose \x7b").data :=
  ⟨by decide, candidate_is_first_to_last_brace.1 _ (by decide)⟩

/-!  ## Lemmas for the extractor-tolerance claim -/

theorem startsWithFence_cons_ne {c : Char} (hc : c ≠ btick)
    (l : List Char) : startsWithFence (c :: l) = false := by
  rcases l with _ | ⟨c2, l2⟩
  · rfl
  · rcases l2 with _ | ⟨c3, l3⟩
    · rfl
    · simp [startsWithFence, hc]

theorem tryFenceAt_cons_ne {c : Char} (hc : c ≠ btick) (cs : List Char) :
    tryFenceAt (c :: cs) = none := by
  rcases cs with _ | ⟨c2, cs2⟩
  · rfl
  · rcases cs2 with _ | ⟨c3, rest⟩
    · rfl
    · simp [tryFenceAt, hc]

/-- The fenced-block search skips any backtick-free prefix. -/
theorem codeBlockSearch_append (p rest : List Char)
    (h : ∀ c ∈ p, c ≠ btick) :
    codeBlockSearch (p ++ rest) = codeBlockSearch rest := by
  induction p with
  | nil => rfl
  | cons c p' ih =>
    have hc : c ≠ btick := h c (List.Mem.head _)
    simp only [List.cons_append, codeBlockSearch, List.append_eq,
      tryFenceAt_cons_ne hc]
    exact ih (fun x hx => h x (List.Mem.tail _ hx))

/-- After a closing brace that is not the payload's last, the remainder never
looks like `\s*` ```` ``` ````, provided the payload has no backticks. -/
theorem notFence_of_no_btick :
    ∀ (a : List Char), (∀ c ∈ a, c ≠ btick) → ∀ b : List Char,
      startsWithFence ((a ++ rbrace :: b).dropWhile isWsRegex) = false := by
  intro a
  induction a with
  | nil =>
    intro _ b
    have h1 : isWsRegex rbrace = false := by decide
    simp only [List.nil_append, List.dropWhile_cons, h1, Bool.false_eq_true,
      if_false]
    exact startsWithFence_cons_ne (by decide) b
  | cons x a' ih =>
    intro h b
    have hx : x ≠ btick := h x (List.Mem.head _)
    by_cases hw : isWsRegex x = true
    · simp only [List.cons_append, List.dropWhile_cons, hw, if_true]
      exact ih (fun c hc => h c (List.Mem.tail _ hc)) b
    · simp only [Bool.not_eq_true] at hw
      simp only [List.cons_append, List.dropWhile_cons, hw,
        Bool.false_eq_true, if_false]
      exact startsWithFence_cons_ne hx _

/-- The lazy group runs to the payload's final closing brace when the payload
has no backticks and a fence follows. -/
theorem lazyBody_through :
    ∀ (mid acc suffix : List Char), (∀ c ∈ mid, c ≠ btick) →
      startsWithFence (suffix.dropWhile isWsRegex) = true →
      lazyBody acc (mid ++ rbrace :: suffix) =
        some (acc ++ mid ++ [rbrace]) := by
  intro mid
  induction mid with
  | nil =>
    intro acc suffix _ hs
    simp only [List.nil_append, lazyBody, if_pos rfl, hs, if_true]
    simp
  | cons x mid' ih =>
    intro acc suffix h hs
    by_cases hx : x = rbrace
    · subst hx
      have hnf : startsWithFence
          ((mid' ++ rbrace :: suffix).dropWhile isWsRegex) = false :=
        notFence_of_no_btick mid' (fun c hc => h c (List.Mem.tail _ hc))
          suffix
      simp only [List.cons_append, lazyBody, List.append_eq, if_pos rfl,
        if_true, hnf, Bool.false_eq_true, if_false]
      rw [ih (acc ++ [rbrace]) suffix (fun c hc => h c (List.Mem.tail _ hc))
        hs]
      simp
    · simp only [List.cons_append, lazyBody, List.append_eq, if_neg hx]
      rw [ih (acc ++ [x]) suffix (fun c hc => h c (List.Mem.tail _ hc)) hs]
      simp

/-- The fenced-block regex matched at the fence itself captures exactly the
payload. -/
theorem tryFenceAt_fence (mid p2 : List Char)
    (h2 : ∀ c ∈ mid, c ≠ btick) :
    tryFenceAt (btick :: btick :: btick :: 'j' :: 's' :: 'o' :: 'n' ::
      '\n' :: lbrace ::
      (mid ++ (rbrace :: '\n' :: btick :: btick :: btick :: p2))) =
      some (lbrace :: (mid ++ [rbrace])) := by
  have hnl : isWsRegex '\n' = true := by decide
  have hlb : isWsRegex lbrace = false := by decide
  simp only [tryFenceAt, if_pos rfl, if_true, and_self, stripJsonTag,
    List.dropWhile_cons, hnl, hlb, Bool.false_eq_true, if_false]
  have hs : startsWithFence
      (('\n' :: btick :: btick :: btick :: p2).dropWhile isWsRegex) =
      true := by
    have hbt : isWsRegex btick = false := by decide
    simp only [List.dropWhile_cons, hnl, if_true, hbt, Bool.false_eq_true,
      if_false]
    simp [startsWithFence]
  rw [lazyBody_through mid [] ('\n' :: btick :: btick :: btick :: p2) h2 hs]
  simp

theorem parseMinString_le {n : ℕ} {x : Option Json} {s : String}
    (h : parseMinString n x = some s) : n ≤ s.length := by
  unfold parseMinString at h
  split at h
  · split at h
    · injection h with h'
      subst h'
      assumption
    · cases h
  · cases h

/-- A validated finding has a nonempty `filePath`. -/
theorem parseVuln_filePath {item : Json} {v : RawVuln}
    (h : parseVuln item = some v) : v.filePath ≠ "" := by
  rcases item with _ | b | q | s | elems | fields <;>
    simp only [parseVuln] at h <;> try exact Option.noConfusion h
  simp only [Option.bind_eq_some, Option.some.injEq] at h
  obtain ⟨sev, hsev, ty, hty, cat, hcat, fp, hfp, ln, hln, snip, hsnip,
    desc, hdesc, recomm, hrecomm, conf, hconf, hv⟩ := h
  have hfp2 : v.filePath = fp := by rw [← hv]
  intro he
  rw [hfp2] at he
  subst he
  exact absurd (parseMinString_le hfp) (by decide)

theorem parseVulns_mem :
    ∀ {items : List Json} {vulns : List RawVuln},
      parseVulns items = some vulns →
      ∀ v ∈ vulns, ∃ item ∈ items, parseVuln item = some v := by
  intro items
  induction items with
  | nil =>
    intro vulns h v hv
    simp only [parseVulns] at h
    injection h with h'
    subst h'
    cases hv
  | cons a rest ih =>
    intro vulns h v hv
    simp only [parseVulns] at h
    split at h
    · rename_i w ws hw hws
      injection h with h'
      subst h'
      rcases List.mem_cons.mp hv with hh | hh
      · subst hh
        exact ⟨a, List.Mem.head _, hw⟩
      · obtain ⟨it, hmem, hp⟩ := ih hws v hh
        exact ⟨it, List.Mem.tail _ hmem, hp⟩
    · cases h

/-- The `filePath` fallback of line 279 is the identity on schema-validated
findings. -/
theorem schema_map_filePath_id {j : Json} {vulns : List RawVuln}
    (h : VulnerabilityDetectionSchema j = some vulns) (projectName : String) :
    vulns.map (fun v =>
      { v with
        filePath :=
          if v.filePath = "" then projectName ++ "/main.js"
          else v.filePath }) = vulns := by
  have hfp : ∀ v ∈ vulns, v.filePath ≠ "" := by
    unfold VulnerabilityDetectionSchema at h
    rcases harr : getVulnArray j with _ | items
    · rw [harr] at h
      cases h
    · rw [harr] at h
      simp only [Option.some_bind] at h
      intro v hv
      obtain ⟨item, _, hitem⟩ := parseVulns_mem h v hv
      exact parseVuln_filePath hitem
  have hid : ∀ v ∈ vulns,
      (fun v : RawVuln =>
        { v with
          filePath :=
            if v.filePath = "" then projectName ++ "/main.js"
            else v.filePath }) v = id v := by
    intro v hv
    simp [if_neg (hfp v hv)]
  rw [List.map_congr_left hid, List.map_id]

theorem codeBlockSearch_fenced (p1 mid p2 : List Char)
    (h1 : ∀ c ∈ p1, c ≠ btick) (h2 : ∀ c ∈ mid, c ≠ btick) :
    codeBlockSearch (p1 ++ btick :: btick :: btick :: 'j' :: 's' :: 'o' ::
      'n' :: '\n' :: lbrace ::
      (mid ++ (rbrace :: '\n' :: btick :: btick :: btick :: p2))) =
      some (lbrace :: (mid ++ [rbrace])) := by
  rw [codeBlockSearch_append _ _ h1]
  simp only [codeBlockSearch, tryFenceAt_fence mid p2 h2]

theorem stripJsonTag_sublist (cs : List Char) :
    (stripJsonTag cs).Sublist cs := by
  unfold stripJsonTag
  split
  · rename_i rest
    exact List.Sublist.trans (List.sublist_cons_self 'n' rest)
      (List.Sublist.trans (List.sublist_cons_self 'o' _)
        (List.Sublist.trans (List.sublist_cons_self 's' _)
          (List.Sublist.cons _ (List.Sublist.refl _))))
  · exact List.Sublist.refl _

theorem tryFenceAt_mem_lbrace {cs cap : List Char}
    (h : tryFenceAt cs = some cap) : lbrace ∈ cs := by
  rcases cs with _ | ⟨c1, cs1⟩
  · cases h
  rcases cs1 with _ | ⟨c2, cs2⟩
  · cases h
  rcases cs2 with _ | ⟨c3, rest⟩
  · cases h
  simp only [tryFenceAt] at h
  by_cases hcond : c1 = btick ∧ c2 = btick ∧ c3 = btick
  · rw [if_pos hcond] at h
    rcases hd : (stripJsonTag rest).dropWhile isWsRegex with _ | ⟨c, body⟩
    · rw [hd] at h
      cases h
    · rw [hd] at h
      simp only [] at h
      by_cases hcl : c = lbrace
      · subst hcl
        have hmem : lbrace ∈ (stripJsonTag rest).dropWhile isWsRegex := by
          rw [hd]
          exact List.Mem.head _
        have hmem2 : lbrace ∈ stripJsonTag rest :=
          (List.dropWhile_sublist _).subset hmem
        have hmem3 : lbrace ∈ rest := (stripJsonTag_sublist rest).subset hmem2
        exact List.Mem.tail _ (List.Mem.tail _ (List.Mem.tail _ hmem3))
      · rw [if_neg hcl] at h
        cases h
  · rw [if_neg hcond] at h
    cases h

theorem codeBlockSearch_none_of_no_lbrace :
    ∀ cs : List Char, (∀ c ∈ cs, c ≠ lbrace) → codeBlockSearch cs = none := by
  intro cs
  induction cs with
  | nil => intro _; rfl
  | cons c rest ih =>
    intro h
    rcases htf : tryFenceAt (c :: rest) with _ | cap
    · simp only [codeBlockSearch, htf]
      exact ih (fun x hx => h x (List.Mem.tail _ hx))
    · exact absurd rfl (h lbrace (tryFenceAt_mem_lbrace htf))

theorem braceSearch_none_of_no_lbrace :
    ∀ cs : List Char, (∀ c ∈ cs, c ≠ lbrace) → braceSearch cs = none := by
  intro cs
  induction cs with
  | nil => intro _; rfl
  | cons c rest ih =>
    intro h
    have hc : c ≠ lbrace := h c (List.Mem.head _)
    simp only [braceSearch, if_neg hc]
    exact ih (fun x hx => h x (List.Mem.tail _ hx))

/-- C5: the extractor is total and tolerant.  (a) For raw text consisting of
arbitrary backtick-free prose around a fenced ```` ```json ```` block whose
backtick-free payload parses and validates, extraction returns exactly the
payload findings and ignores the prose.  (b) Text containing no JSON at all
(no opening brace) extracts to the empty list rather than an error.  (c) When
the selected candidate fails `JSON.parse`, extraction again returns the empty
list. -/
theorem extractor_tolerance :
    (∀ (prose1 payload prose2 projectName : String) (mid : List Char)
      (j : Json) (vulns : List RawVuln),
      (∀ c ∈ prose1.data, c ≠ btick) →
      (∀ c ∈ payload.data, c ≠ btick) →
      payload.data = lbrace :: (mid ++ [rbrace]) →
      jsonParse payload = some j →
      VulnerabilityDetectionSchema j = some vulns →
      extractFindings (prose1 ++ "```json\n" ++ payload ++ "\n```" ++ prose2)
        projectName = vulns) ∧
    (∀ text projectName : String, (∀ c ∈ text.data, c ≠ lbrace) →
      extractFindings text projectName = []) ∧
    (∀ text projectName : String,
      jsonParse (String.mk (extractCandidate text.data)) = none →
      extractFindings text projectName = []) := by
  refine ⟨?_, ?_, ?_⟩
  · intro prose1 payload prose2 projectName mid j vulns h1 h2 h3 h4 h5
    have hda : ∀ s t : String, (s ++ t).data = s.data ++ t.data :=
      fun s t => rfl
    have hfd1 : ("```json\n" : String).data =
        btick :: btick :: btick :: 'j' :: 's' :: 'o' :: 'n' :: '\n' :: [] :=
      by decide
    have hfd2 : ("\n```" : String).data =
        '\n' :: btick :: btick :: btick :: [] := by decide
    have hdata :
        (prose1 ++ "```json\n" ++ payload ++ "\n```" ++ prose2).data =
        prose1.data ++ (btick :: btick :: btick :: 'j' :: 's' :: 'o' :: 'n' ::
          '\n' :: lbrace ::
          (mid ++ (rbrace :: '\n' :: btick :: btick :: btick ::
            prose2.data))) := by
      rw [hda, hda, hda, hda, hfd1, hfd2, h3]
      simp [List.append_assoc]
    have h2' : ∀ c ∈ mid, c ≠ btick := by
      intro c hc
      refine h2 c ?_
      rw [h3]
      exact List.Mem.tail _ (List.mem_append_left _ hc)
    have hbs : codeBlockSearch
        (prose1 ++ "```json\n" ++ payload ++ "\n```" ++ prose2).data =
        some (lbrace :: (mid ++ [rbrace])) := by
      rw [hdata]
      exact codeBlockSearch_fenced prose1.data mid prose2.data h1 h2'
    have hcand : extractCandidate
        (prose1 ++ "```json\n" ++ payload ++ "\n```" ++ prose2).data =
        payload.data := by
      simp only [extractCandidate, hbs]
      rw [h3]
    have htne : (prose1 ++ "```json\n" ++ payload ++ "\n```" ++ prose2) ≠
        "" := by
      intro he
      have hmem : btick ∈
          (prose1 ++ "```json\n" ++ payload ++ "\n```" ++ prose2).data := by
        rw [hdata]
        exact List.mem_append_right _ (List.Mem.head _)
      rw [he] at hmem
      cases hmem
    have hcne : extractCandidate
        (prose1 ++ "```json\n" ++ payload ++ "\n```" ++ prose2).data ≠
        [] := by
      rw [hcand, h3]
      simp
    have hmk : String.mk (extractCandidate
        (prose1 ++ "```json\n" ++ payload ++ "\n```" ++ prose2).data) =
        payload := by
      rw [hcand]
    simp only [extractFindings, if_neg htne, if_neg hcne, hmk, h4, h5]
    exact schema_map_filePath_id h5 projectName
  · intro text projectName h
    by_cases ht : text = ""
    · simp [extractFindings, ht]
    · have hcand : extractCandidate text.data = [] := by
        simp only [extractCandidate, codeBlockSearch_none_of_no_lbrace
          text.data h, braceSearch_none_of_no_lbrace text.data h]
      simp [extractFindings, ht, hcand]
  · intro text projectName h
    by_cases ht : text = ""
    · simp [extractFindings, ht]
    · by_cases hcand : extractCandidate text.data = []
      · simp [extractFindings, ht, hcand]
      · simp [extractFindings, ht, hcand, h]

/-- The inner characters of the witness payload (everything between the
outer braces). -/
def cfiveMid : List Char :=
  ("\"vulnerabilities\":[\x7b\"severity\":\"high\",\"type\":\"XSS\",\"category\":\"Output Encoding\",\"filePath\":\"app.js\",\"description\":\"aaaaaaaaaa\",\"recommendation\":\"bbbbbbbbbb\"\x7d]").data

/-- The witness payload string. -/
def cfivePayload : String := String.mk (lbrace :: (cfiveMid ++ [rbrace]))

/-- The parsed form of the witness payload. -/
def cfiveJson : Json :=
  Json.obj [("vulnerabilities", Json.arr
    [Json.obj [("severity", Json.str "high"), ("type", Json.str "XSS"),
      ("category", Json.str "Output Encoding"),
      ("filePath", Json.str "app.js"),
      ("description", Json.str "aaaaaaaaaa"),
      ("recommendation", Json.str "bbbbbbbbbb")]])]

/-- The validated finding of the witness payload. -/
def cfiveVuln : RawVuln :=
  ⟨Severity.high, "XSS", "Output Encoding", "app.js", none, none,
    "aaaaaaaaaa", "bbbbbbbbbb", none⟩

/-- Witness for C5: a fenced payload inside prose extracts to exactly its
finding; prose with no JSON extracts to the empty list; an unparseable
candidate extracts to the empty list. -/
theorem extractor_tolerance_witness :
    extractFindings ("Sure, here is my analysis: " ++ "```json\n" ++
      cfivePayload ++ "\n```" ++ " Let me know if more is needed.")
      "proj" = [cfiveVuln] ∧
    extractFindings "The code looks fine overall." "proj" = [] ∧
    extractFindings "Broken output \x7b not json" "proj" = [] := by
  refine ⟨extractor_tolerance.1 "Sure, here is my analysis: " cfivePayload
      " Let me know if more is needed." "proj" cfiveMid cfiveJson
      [cfiveVuln] (by decide) (by decide) rfl rfl rfl,
    extractor_tolerance.2.1 "The code looks fine overall." "proj"
      (by decide),
    extractor_tolerance.2.2 "Broken output \x7b not json" "proj" rfl⟩

end CodeInspector
